import Mathlib

/-!
Verification development for the better-datafy repository.

Text is modelled as a list of characters (`Text`); JavaScript strings of the
source are embedded as `Text` or Lean `String` values as convenient.  External
effects (HTTP fetches, model calls, randomness) are modelled as explicit
inputs, so every source function becomes a total Lean function of its inputs
and the outcome of its external calls.
-/

namespace BD

/-- JavaScript strings, embedded as lists of characters. -/
abbrev Text := List Char

/-- Embed a Lean string literal as `Text`. -/
def strL (s : String) : Text := s.data

/- ## Chunker (modelled from the spec)

Modelled from the spec: the Chunker of the RAG pipeline
(`chunk(text, chunk_size, overlap)`, §4.2) is part of `ragProcess` in
`app/inngest/analyze.ts`, which is not among the provided source files (only
its callers and its registration in `app/inngest/index.ts` are).  The model
follows the spec's words: overlapping, size-bounded segments, each chunk at
most `chunk_size` characters, adjacent chunks overlapping by `overlap`
characters; empty input yields zero chunks; input no longer than `chunk_size`
yields one chunk. -/

/-- One sliding-window step of the chunker; `fuel` bounds the recursion and is
instantiated with the text length. -/
def chunkAux (size overlap : Nat) : Nat → Text → List Text
  | _, [] => []
  | 0, _ :: _ => []
  | fuel + 1, c :: cs =>
    if (c :: cs).length ≤ size then [c :: cs]
    else (c :: cs).take size :: chunkAux size overlap fuel ((c :: cs).drop (size - overlap))

/-- Modelled from the spec: `chunk(text, chunk_size, overlap)` of §4.2. -/
def chunk (size overlap : Nat) (t : Text) : List Text :=
  chunkAux size overlap t.length t

/-- Reassembly used by the round-trip law: keep the first chunk whole and drop
the `overlap`-character overlap from every later chunk. -/
def reassemble (overlap : Nat) : List Text → Text
  | [] => []
  | c :: cs => c ++ (cs.map (fun x => x.drop overlap)).flatten

/- ## Embedder (modelled from the spec)

Modelled from the spec: the Embedder (`embed_many`, §4.3) also lives in the
missing `ragProcess`/`ragQuery` code.  Per the spec it splits requests larger
than a bounded batch (100 texts) into several model calls and concatenates the
results in input order; the external embedding model is an explicit function
argument. -/

/-- Split a list into consecutive batches of at most `n` elements; `fuel`
bounds the recursion and is instantiated with the list length. -/
def splitBatches (n : Nat) : Nat → List α → List (List α)
  | _, [] => []
  | 0, _ :: _ => []
  | fuel + 1, c :: cs =>
    (c :: cs).take n :: splitBatches n fuel ((c :: cs).drop n)

/-- Modelled from the spec: one external model call on a single batch. -/
def embedBatch (model : α → β) (batch : List α) : List β := batch.map model

/-- Modelled from the spec: `embed_many` — split into batches of at most 100,
call the model once per batch, concatenate the answers in order. -/
def embedMany (model : α → β) (texts : List α) : List β :=
  ((splitBatches 100 texts.length texts).map (embedBatch model)).flatten

/- ## Vector Index (modelled from the spec)

Modelled from the spec: the Vector Index client (§4.4,
`upsert(namespace, records)` / `query(namespace, vector, top_k)`) belongs to
the missing `ragProcess`/`ragQuery` code.  The store is a list of
(namespace, record) entries; upsert overwrites by (namespace, id); query
filters to one namespace, orders by descending similarity and takes `top_k`.
The similarity score is an explicit function argument. -/

structure VectorRecord where
  id : String
  vector : List Int
  content : Text
  sourceIndex : Nat
deriving DecidableEq

abbrev VectorStore := List (String × VectorRecord)

/-- Modelled from the spec: `upsert(namespace, records)`, idempotent by record
id — re-upserting an id under the same namespace overwrites the old entry. -/
def upsert (ns : String) (recs : List VectorRecord) (store : VectorStore) : VectorStore :=
  store.filter (fun e => !(e.1 == ns && recs.any (fun r => r.id == e.2.id)))
    ++ recs.map (fun r => (ns, r))

/-- Insert into a sorted list, stable (first position where `le` holds). -/
def insertBy (le : α → α → Bool) (a : α) : List α → List α
  | [] => [a]
  | b :: bs => if le a b then a :: b :: bs else b :: insertBy le a bs

/-- Deterministic stable sort, used to model the store's native ordering of
query results. -/
def sortBy (le : α → α → Bool) : List α → List α
  | [] => []
  | a :: as => insertBy le a (sortBy le as)

/-- Modelled from the spec: `query(namespace, vector, top_k)` — candidates of
the one namespace, ordered by descending similarity, at most `top_k` kept. -/
def query (score : List Int → List Int → Int) (ns : String) (qv : List Int)
    (topK : Nat) (store : VectorStore) : List VectorRecord :=
  (sortBy (fun a b => decide (score qv b.vector ≤ score qv a.vector))
    ((store.filter (fun e => e.1 == ns)).map Prod.snd)).take topK

/-- Modelled from the spec: the vector records built for one resolved source —
ids combine the source index with a sequential chunk counter (§6). -/
def chunkRecords (model : Text → List Int) (size overlap srcIdx : Nat)
    (t : Text) : List VectorRecord :=
  (chunk size overlap t).enum.map (fun p =>
    { id := toString srcIdx ++ "-" ++ toString p.1
      vector := model p.2
      content := p.2
      sourceIndex := srcIdx })

/-- Modelled from the spec: all vector records of a job — every source is
chunked and embedded, chunks collected across sources. -/
def jobRecords (model : Text → List Int) (size overlap : Nat)
    (sources : List Text) : List VectorRecord :=
  (sources.enum.map (fun p => chunkRecords model size overlap p.1 p.2)).flatten

/-- Modelled from the spec: the ingest path's single upsert — all of a job's
records are upserted under the namespace equal to the job id (§4.6). -/
def ingest (model : Text → List Int) (size overlap : Nat) (jobId : String)
    (sources : List Text) (store : VectorStore) : VectorStore :=
  upsert jobId (jobRecords model size overlap sources) store

/- ## Content resolver — from `app/inngest/scrape.ts` and `app/inngest/rss.ts`

`fetchUrlContent` / `fetchRssContent` are embedded with the outcome of the
`fetch` call as an explicit argument: `ok body` for a successful response,
`httpError` for a non-OK status, `thrown` for a thrown network error.  The
regex replacements of the source are embedded as character-list scanners. -/

/-- The whitespace class of the JavaScript regexes `\s` and of `trim()`
(ASCII whitespace plus no-break space). -/
def isJsWs (c : Char) : Bool :=
  c == ' ' || c == '\t' || c == '\n' || c == '\r' || c == '\x0b' || c == '\x0c'
    || c == '\u00A0'

/-- `p` begins the text `t` (JavaScript `startsWith`). -/
def startsWithText : Text → Text → Bool
  | [], _ => true
  | _ :: _, [] => false
  | p :: ps, c :: cs => p == c && startsWithText ps cs

/-- Case-insensitive variant, for the `/gi` regex flags. -/
def startsWithCI : Text → Text → Bool
  | [], _ => true
  | _ :: _, [] => false
  | p :: ps, c :: cs => p.toLower == c.toLower && startsWithCI ps cs

/-- Consume the `[^>]*>` part of a tag match: drop up to and including the
first `>`; `none` when no `>` follows (the regex then has no match). -/
def afterTagOpen : Text → Option Text
  | [] => none
  | c :: cs => if c == '>' then some cs else afterTagOpen cs

/-- Drop through the first (case-insensitive) occurrence of `closeTag`,
returning the remainder after it; `none` when it never occurs. -/
def dropThroughClose (closeTag : Text) : Nat → Text → Option Text
  | _, [] => none
  | 0, _ :: _ => none
  | fuel + 1, c :: cs =>
    if startsWithCI closeTag (c :: cs) then some ((c :: cs).drop closeTag.length)
    else dropThroughClose closeTag fuel cs

/-- One global replace of `<tag[^>]*>[\s\S]*?<\/tag>` (flags `gi`) by the
empty string, as in the `script`/`style` lines of `fetchUrlContent`. -/
def removeBlocksAux (tag : Text) : Nat → Text → Text
  | _, [] => []
  | 0, t => t
  | fuel + 1, c :: cs =>
    if startsWithCI (strL "<" ++ tag) (c :: cs) then
      match afterTagOpen ((c :: cs).drop (tag.length + 1)) with
      | none => c :: removeBlocksAux tag fuel cs
      | some rest =>
        match dropThroughClose (strL "</" ++ tag ++ strL ">") rest.length rest with
        | none => c :: removeBlocksAux tag fuel cs
        | some rest2 => removeBlocksAux tag fuel rest2
    else c :: removeBlocksAux tag fuel cs

def removeBlocks (tag : Text) (t : Text) : Text := removeBlocksAux tag t.length t

/-- The global replace of `<[^>]*>` (flag `g`) by a single space. -/
def stripTagsAux : Nat → Text → Text
  | _, [] => []
  | 0, t => t
  | fuel + 1, c :: cs =>
    if c == '<' then
      match afterTagOpen cs with
      | some rest => ' ' :: stripTagsAux fuel rest
      | none => c :: stripTagsAux fuel cs
    else c :: stripTagsAux fuel cs

def stripTags (t : Text) : Text := stripTagsAux t.length t

/-- The global replace of `\s+` by a single space; the flag records whether the
previous character belonged to a whitespace run already replaced. -/
def collapseWsAux : Bool → Text → Text
  | _, [] => []
  | prevWs, c :: cs =>
    if isJsWs c then
      if prevWs then collapseWsAux true cs
      else ' ' :: collapseWsAux true cs
    else c :: collapseWsAux false cs

def collapseWs (t : Text) : Text := collapseWsAux false t

/-- JavaScript `trim()`: drop whitespace from both ends. -/
def trimText (t : Text) : Text :=
  ((t.dropWhile isJsWs).reverse.dropWhile isJsWs).reverse

/-- The markup-stripping pipeline of `fetchUrlContent` (`scrape.ts:33-38`),
in the source's order: script blocks, style blocks, remaining tags to a
space, whitespace runs to a single space, trim. -/
def stripHtml (html : Text) : Text :=
  trimText (collapseWs (stripTags (removeBlocks (strL "style")
    (removeBlocks (strL "script") html))))

/-- Outcome of the `fetch` call inside `fetchUrlContent`/`fetchRssContent`. -/
inductive FetchOutcome where
  | ok (body : Text)
  | httpError
  | thrown
deriving DecidableEq

/-- `scrape.ts:26` — a source not starting with `http` is promoted to a URL by
prefixing `https://`. -/
def fullUrlOf (url : Text) : Text :=
  if startsWithText (strL "http") url then url else strL "https://" ++ url

/-- `fetchUrlContent` of `scrape.ts:24-43`: fetch the (possibly promoted) URL;
a non-OK response yields the `Failed to fetch` sentinel, a thrown error the
`Error fetching content from` sentinel, a body is markup-stripped. -/
def fetchUrlContent (url : Text) (outcome : FetchOutcome) : Text :=
  match outcome with
  | .thrown => strL "Error fetching content from " ++ url
  | .httpError => strL "Failed to fetch " ++ fullUrlOf url
  | .ok body => stripHtml body

/-- `fetchRssContent` of `rss.ts:17-38`: as `fetchUrlContent`, with the
stripped body additionally truncated to 8000 characters. -/
def fetchRssContent (url : Text) (outcome : FetchOutcome) : Text :=
  match outcome with
  | .thrown => strL "Error fetching content from " ++ url
  | .httpError => strL "Failed to fetch " ++ fullUrlOf url
  | .ok body => (stripHtml body).take 8000

/- ## Dashboard analyze route — from `app/routes/_dash.dashboard.analyze.tsx` -/

inductive JobStatus where
  | running
  | finished
  | error
deriving DecidableEq

/-- Result of the route `action`: either accepted, with the list of event
names sent to the job dispatcher, or rejected with a validation error. -/
inductive ActionResult where
  | accepted (events : List String)
  | rejected
deriving DecidableEq

/-- `createAnalysisSchema` (`analyze.tsx:33-36`): name 1..100 characters,
1..5 sources of 1..1500 characters each. -/
def createAnalysisValid (name : String) (sources : List String) : Bool :=
  decide (1 ≤ name.length) && decide (name.length ≤ 100) &&
  decide (1 ≤ sources.length) && decide (sources.length ≤ 5) &&
  sources.all (fun s => decide (1 ≤ s.length) && decide (s.length ≤ 1500))

def isHexDigit (c : Char) : Bool :=
  ('0' ≤ c && c ≤ '9') || ('a' ≤ c && c ≤ 'f') || ('A' ≤ c && c ≤ 'F')

/-- Split on `-`, keeping empty groups (JavaScript `split("-")`). -/
def splitDash : Text → List Text
  | [] => [[]]
  | c :: cs =>
    match splitDash cs with
    | [] => [[c]]
    | g :: gs => if c == '-' then [] :: g :: gs else (c :: g) :: gs

/-- `z.string().uuid()`: five `-`-separated groups of 8, 4, 4, 4 and 12
hexadecimal digits. -/
def isUuid (s : String) : Bool :=
  match splitDash s.data with
  | [a, b, c, d, e] =>
    a.length == 8 && b.length == 4 && c.length == 4 && d.length == 4 &&
    e.length == 12 && (a ++ b ++ c ++ d ++ e).all isHexDigit
  | _ => false

/-- `querySchema` (`analyze.tsx:38-41`): a UUID job id and a question of
1..500 characters. -/
def queryValid (analysisId question : String) : Bool :=
  isUuid analysisId && decide (1 ≤ question.length) &&
  decide (question.length ≤ 500)

/-- A persisted analysis job as the query path sees it. -/
structure AnalysisJob where
  id : String
  status : JobStatus
deriving DecidableEq

/-- The `create` branch of the `action` (`analyze.tsx:61-88`): on validation
success the job row is inserted and the `ai/rag.process` event is sent;
otherwise a 400 is returned and nothing is created. -/
def createAction (name : String) (sources : List String) : ActionResult :=
  if createAnalysisValid name sources then ActionResult.accepted ["ai/rag.process"]
  else ActionResult.rejected

/-- The `query` branch of the `action` (`analyze.tsx:90-103`): the job table
`jobs` is available to the handler but the branch never reads it — validation
looks only at the submitted id format and question length, then sends the
`ai/rag.query` event. -/
def queryAction (jobs : List AnalysisJob) (analysisId question : String) :
    ActionResult :=
  if queryValid analysisId question then ActionResult.accepted ["ai/rag.query"]
  else ActionResult.rejected

/- ## Tabular data generation — from `app/inngest/generate.ts` -/

/-- A generated cell: the simple fallback produces strings and (for `age`
columns) numbers. -/
inductive CellValue where
  | str (s : String)
  | num (n : Nat)
deriving DecidableEq

/-- JavaScript `includes` on strings. -/
def containsText (needle : Text) : Text → Bool
  | [] => needle.isEmpty
  | c :: cs => startsWithText needle (c :: cs) || containsText needle cs

def inclStr (needle hay : String) : Bool := containsText needle.data hay.data

def lowerStr (s : String) : String := String.mk (s.data.map Char.toLower)

/-- JavaScript `String(n).padStart(4, "0")`. -/
def padZero4 (s : String) : String :=
  String.mk (List.replicate (4 - s.length) '0' ++ s.data)

/-- One cell of `generateSimpleFallbackData` (`generate.ts:182-203`): a
placeholder chosen from the lower-cased column name.  `Date.now()` and
`Math.random()` draws of the `date` and `price`/`cost` branches are supplied
by the oracles `randDate`/`randPrice`, indexed by row and column. -/
def fallbackCell (randDate randPrice : Nat → Nat → String) (i idx : Nat)
    (command : String) : CellValue :=
  let lower := lowerStr command
  if inclStr "name" lower then .str ("Name " ++ toString (i + 1))
  else if inclStr "email" lower then
    .str ("user" ++ toString (i + 1) ++ "@example.com")
  else if inclStr "age" lower then .num (20 + i % 50)
  else if inclStr "city" lower then
    .str ((["New York", "London", "Paris", "Tokyo"].getD (i % 4) ""))
  else if inclStr "country" lower then
    .str ((["USA", "UK", "France", "Japan"].getD (i % 4) ""))
  else if inclStr "phone" lower then
    .str ("+1-555-" ++ padZero4 (toString (i + 1)))
  else if inclStr "date" lower then .str (randDate i idx)
  else if inclStr "price" lower || inclStr "cost" lower then
    .str (randPrice i idx)
  else .str (command ++ " " ++ toString (i + 1))

/-- `generateSimpleFallbackData` (`generate.ts:174-208`): `numItems` rows,
one placeholder value per command. -/
def generateSimpleFallbackData (randDate randPrice : Nat → Nat → String)
    (commands : List String) (numItems : Nat) : List (List CellValue) :=
  (List.range numItems).map (fun i =>
    commands.enum.map (fun p => fallbackCell randDate randPrice i p.1 p.2))

/-- `generateAITabularDataWithFallbacks` (`generate.ts:211-240`): validate the
inputs, then try the primary AI call, then the fallback AI call, then the
locally synthesized data.  The two AI calls are external; their outcomes
(`some` rows, or `none` for a thrown error) are explicit arguments. -/
def generateWithFallbacks (randDate randPrice : Nat → Nat → String)
    (primary fallbackAI : Option (List (List CellValue)))
    (commands : List String) (numItems : Nat) :
    Except String (List (List CellValue)) :=
  if commands.length = 0 then .error "Commands array is empty or undefined"
  else if numItems = 0 ∨ numItems > 1000 then
    .error "Number of items must be between 1 and 1000"
  else
    match primary with
    | some d => .ok d
    | none =>
      match fallbackAI with
      | some d => .ok d
      | none => .ok (generateSimpleFallbackData randDate randPrice commands numItems)

/- ## Scraper and RSS pipelines — from `app/inngest/scrape.ts` and
`app/inngest/rss.ts` -/

/-- The fetch-failure sentinel test of `scrape.ts:132-135` and
`rss.ts:147-150`. -/
def isFetchSentinel (content : Text) : Bool :=
  startsWithText (strL "Failed to fetch") content ||
  startsWithText (strL "Error fetching") content

/-- The per-link loop of `llmScraper` (`scrape.ts:127-149`): fetch each link's
content (`fetchC`), skip it when it is a fetch sentinel, otherwise run the LLM
extraction (`extract`).  Returns the collected results together with the list
of contents actually passed to the LLM stage. -/
def llmScraperRun (fetchC : Text → Text) (extract : Text → Option α) :
    List Text → List α × List Text
  | [] => ([], [])
  | link :: rest =>
    let content := fetchC link
    let tail := llmScraperRun fetchC extract rest
    if isFetchSentinel content then tail
    else
      match extract content with
      | some r => (r :: tail.1, content :: tail.2)
      | none => (tail.1, content :: tail.2)

/-- The content handling of `processRssFeed` (`rss.ts:141-197`) after the
fetch: a sentinel content sets the feed's status to `error` without
summarizing; otherwise the summarizer runs on the content and its outcome
decides between `error` and `finished`.  Returns the final status and the
input passed to `summarizeWithLLM`, when it was called at all. -/
def processRssFeedModel (content : Text) (summaryOutcome : Option Text) :
    JobStatus × Option Text :=
  if isFetchSentinel content then (JobStatus.error, none)
  else
    match summaryOutcome with
    | none => (JobStatus.error, some content)
    | some _ => (JobStatus.finished, some content)

/- ## Auxiliary predicates used by the statements -/

/-- The result is an `ok`, not an `error`. -/
def exceptOk : Except ε α → Bool
  | .ok _ => true
  | .error _ => false

/-- The first character, if any, is not whitespace. -/
def headNotWs (t : Text) : Bool :=
  match t.head? with
  | none => true
  | some c => !isJsWs c

/-- The relation forbidding two adjacent spaces. -/
def NoTwoSpaces (a b : Char) : Prop := ¬(a = ' ' ∧ b = ' ')

/-- Constant oracles standing for `Date.now()`/`Math.random()` draws in
concrete evaluations. -/
def constDate : Nat → Nat → String := fun _ _ => "2024-01-01"

def constPrice : Nat → Nat → String := fun _ _ => "9.99"

/-! ## Chunker lemmas and the round-trip law -/

lemma chunkAux_map_drop_flatten (size overlap : Nat) (hov : overlap < size) :
    ∀ (fuel : Nat) (t : Text), t.length ≤ fuel →
      ((chunkAux size overlap fuel t).map (fun x => x.drop overlap)).flatten
        = t.drop overlap := by
  intro fuel
  induction fuel with
  | zero =>
    intro t ht
    have h0 : t = [] := List.length_eq_zero.mp (Nat.le_zero.mp ht)
    subst h0
    simp [chunkAux]
  | succ n ih =>
    intro t ht
    match t with
    | [] => simp [chunkAux]
    | c :: cs =>
      by_cases h : (c :: cs).length ≤ size
      · have h' : cs.length + 1 ≤ size := by simpa using h
        simp [chunkAux, h']
      · have hstep : 1 ≤ size - overlap := by omega
        have hlen : ((c :: cs).drop (size - overlap)).length ≤ n := by
          rw [List.length_drop]
          have := List.length_cons c cs ▸ ht
          omega
        rw [chunkAux, if_neg h, List.map_cons, List.flatten_cons, ih _ hlen,
          List.drop_drop, List.drop_take]
        have harith : size - overlap + overlap = size := by omega
        rw [harith]
        have : List.drop size (c :: cs)
            = List.drop (size - overlap) (List.drop overlap (c :: cs)) := by
          rw [List.drop_drop]
          congr 1
          omega
        rw [this, List.take_append_drop]

lemma reassemble_chunkAux (size overlap : Nat) (hov : overlap < size) :
    ∀ (fuel : Nat) (t : Text), t.length ≤ fuel →
      reassemble overlap (chunkAux size overlap fuel t) = t := by
  intro fuel t ht
  match fuel, t with
  | _, [] =>
    cases fuel <;> simp [chunkAux, reassemble]
  | 0, c :: cs => simp at ht
  | n + 1, c :: cs =>
    by_cases h : (c :: cs).length ≤ size
    · have h' : cs.length + 1 ≤ size := by simpa using h
      simp [chunkAux, h', reassemble]
    · have hlen : ((c :: cs).drop (size - overlap)).length ≤ n := by
        rw [List.length_drop]
        have := List.length_cons c cs ▸ ht
        omega
      rw [chunkAux, if_neg h, reassemble,
        chunkAux_map_drop_flatten size overlap hov n _ hlen, List.drop_drop]
      have harith : size - overlap + overlap = size := by omega
      rw [harith, List.take_append_drop]

/-- C2: for overlap < chunk_size, reassembling the chunks — the first whole,
each later one with its overlap-character overlap dropped — reproduces the
text exactly; the empty text yields zero chunks; a nonempty text of length at
most chunk_size yields exactly one chunk equal to the text. -/
theorem chunk_roundtrip_spec :
    ∀ (size overlap : Nat) (t : Text), overlap < size →
      reassemble overlap (chunk size overlap t) = t ∧
      chunk size overlap [] = [] ∧
      (t ≠ [] → t.length ≤ size → chunk size overlap t = [t]) := by
  intro size overlap t hov
  refine ⟨reassemble_chunkAux size overlap hov t.length t le_rfl, rfl, ?_⟩
  intro hne hle
  match t with
  | [] => exact absurd rfl hne
  | c :: cs =>
    have hle' : cs.length + 1 ≤ size := by simpa using hle
    simp [chunk, chunkAux, hle']

theorem chunk_roundtrip_spec_witness :
    reassemble 1 (chunk 3 1 (strL "abcde")) = strL "abcde" ∧
    chunk 3 1 [] = [] ∧
    (strL "ab" ≠ [] → (strL "ab").length ≤ 3 → chunk 3 1 (strL "ab") = [strL "ab"]) := by
  refine ⟨(chunk_roundtrip_spec 3 1 (strL "abcde") (by decide)).1,
    (chunk_roundtrip_spec 3 1 (strL "abcde") (by decide)).2.1,
    (chunk_roundtrip_spec 3 1 (strL "ab") (by decide)).2.2⟩

/-! ## Embedder lemmas and the ordering law -/

lemma splitBatches_flatten (n : Nat) (hn : 1 ≤ n) :
    ∀ (fuel : Nat) (l : List α), l.length ≤ fuel →
      (splitBatches n fuel l).flatten = l := by
  intro fuel
  induction fuel with
  | zero =>
    intro l hl
    have h0 : l = [] := List.length_eq_zero.mp (Nat.le_zero.mp hl)
    subst h0
    simp [splitBatches]
  | succ m ih =>
    intro l hl
    match l with
    | [] => simp [splitBatches]
    | c :: cs =>
      rw [splitBatches, List.flatten_cons, ih _
        (by rw [List.length_drop]; have := List.length_cons c cs ▸ hl; omega)]
      exact List.take_append_drop n (c :: cs)

lemma embedMany_eq_map (model : α → β) (texts : List α) :
    embedMany model texts = texts.map model := by
  unfold embedMany embedBatch
  rw [← List.map_flatten, splitBatches_flatten 100 (by omega) _ _ le_rfl]

/-- C3: `embed_many` returns as many vectors as it was given texts and the
i-th vector is the model's embedding of the i-th text, for every batch size —
in particular beyond the internal 100-text split threshold. -/
theorem embedMany_ordering :
    ∀ (model : α → β) (texts : List α),
      (embedMany model texts).length = texts.length ∧
      ∀ (i : Nat) (h1 : i < (embedMany model texts).length)
        (h2 : i < texts.length),
        (embedMany model texts).get ⟨i, h1⟩ = model (texts.get ⟨i, h2⟩) := by
  intro model texts
  have he := embedMany_eq_map model texts
  constructor
  · rw [he, List.length_map]
  · intro i h1 h2
    rw [List.get_of_eq he ⟨i, h1⟩]
    simp

theorem embedMany_ordering_witness :
    (embedMany String.length (List.replicate 101 "ab")).length
      = (List.replicate 101 "ab").length ∧
    (embedMany String.length (List.replicate 101 "ab")).get
        ⟨100, by rw [embedMany_eq_map]; simp⟩
      = String.length ((List.replicate 101 "ab").get ⟨100, by simp⟩) :=
  ⟨(embedMany_ordering String.length (List.replicate 101 "ab")).1,
    (embedMany_ordering String.length (List.replicate 101 "ab")).2 100
      (by rw [embedMany_eq_map]; simp) (by simp)⟩

/-! ## Vector index lemmas and namespace isolation -/

lemma mem_insertBy (le : α → α → Bool) (x a : α) :
    ∀ l : List α, a ∈ insertBy le x l ↔ a = x ∨ a ∈ l := by
  intro l
  induction l with
  | nil => simp [insertBy]
  | cons b bs ih =>
    by_cases h : le x b
    · simp [insertBy, h]
    · simp [insertBy, h, ih]
      tauto

lemma mem_sortBy (le : α → α → Bool) (a : α) :
    ∀ l : List α, a ∈ sortBy le l ↔ a ∈ l := by
  intro l
  induction l with
  | nil => simp [sortBy]
  | cons b bs ih =>
    simp [sortBy, mem_insertBy, ih]

lemma candidates_upsert_ne (N M : String) (h : N ≠ M)
    (recs : List VectorRecord) (store : VectorStore) :
    (upsert N recs store).filter (fun e => e.1 == M)
      = store.filter (fun e => e.1 == M) := by
  unfold upsert
  rw [List.filter_append]
  have h2 : (recs.map (fun r => (N, r))).filter (fun e => e.1 == M) = [] := by
    rw [List.filter_eq_nil_iff]
    intro e he
    simp only [List.mem_map] at he
    obtain ⟨r, _, rfl⟩ := he
    simp [h]
  rw [h2, List.append_nil, List.filter_filter]
  apply List.filter_congr
  intro e _
  by_cases hm : e.1 = M
  · have hn : ¬(e.1 = N) := by rw [hm]; exact fun hc => h hc.symm
    simp [hm, hn]
    exact Or.inl (fun hc => h hc.symm)
  · simp [hm]

/-- C1: a query under namespace M is entirely unaffected by an upsert under a
different namespace N (so a record upserted under N is never among the
payloads returned under M); every payload a query returns comes from an entry
of the queried namespace; and every entry the ingest path creates for a job
carries that job's id as its namespace. -/
theorem namespace_isolation :
    ∀ (score : List Int → List Int → Int) (N M : String) (qv : List Int)
      (topK : Nat) (recs : List VectorRecord) (store : VectorStore)
      (model : Text → List Int) (size overlap : Nat) (jobId : String)
      (sources : List Text),
      (N ≠ M → query score M qv topK (upsert N recs store)
          = query score M qv topK store) ∧
      (∀ r ∈ query score M qv topK store, (M, r) ∈ store) ∧
      (∀ e ∈ ingest model size overlap jobId sources store,
        e ∈ store ∨ e.1 = jobId) := by
  intro score N M qv topK recs store model size overlap jobId sources
  refine ⟨?_, ?_, ?_⟩
  · intro hNM
    unfold query
    rw [candidates_upsert_ne N M hNM recs store]
  · intro r hr
    unfold query at hr
    have hr1 := List.mem_of_mem_take hr
    rw [mem_sortBy] at hr1
    simp only [List.mem_map] at hr1
    obtain ⟨e, he, rfl⟩ := hr1
    obtain ⟨a, b⟩ := e
    have hpred := List.of_mem_filter he
    have ha : a = M := by simpa using hpred
    subst ha
    exact List.mem_of_mem_filter he
  · intro e he
    unfold ingest upsert at he
    rw [List.mem_append] at he
    rcases he with h1 | h2
    · exact Or.inl (List.mem_of_mem_filter h1)
    · right
      simp only [List.mem_map] at h2
      obtain ⟨r, _, rfl⟩ := h2
      rfl

theorem namespace_isolation_witness :
    query (fun _ _ => 0) "b" [] 3
        (upsert "a" [⟨"0-0", [1], strL "a", 0⟩]
          [("b", ⟨"0-0", [2], strL "b", 0⟩)])
      = query (fun _ _ => 0) "b" [] 3 [("b", ⟨"0-0", [2], strL "b", 0⟩)] ∧
    ("b", (⟨"0-0", [2], strL "b", 0⟩ : VectorRecord)) ∈
      ([("b", ⟨"0-0", [2], strL "b", 0⟩)] : VectorStore) ∧
    (("j", (⟨"0-0", [0], strL "hi", 0⟩ : VectorRecord)) ∈
        ([("b", ⟨"0-0", [2], strL "b", 0⟩)] : VectorStore) ∨
      (("j", (⟨"0-0", [0], strL "hi", 0⟩ : VectorRecord)) :
        String × VectorRecord).1 = "j") := by
  have h := namespace_isolation (fun _ _ => 0) "a" "b" [] 3
    [⟨"0-0", [1], strL "a", 0⟩] [("b", ⟨"0-0", [2], strL "b", 0⟩)]
    (fun _ => [0]) 3 1 "j" [strL "hi"]
  exact ⟨h.1 (by decide), h.2.1 _ (by decide), h.2.2 _ (by decide)⟩

/-! ## Content resolver: failure sentinels and URL promotion -/

/-- C4: the content resolver never raises — a non-OK response or a thrown
network error yields one of the two sentinel strings, the original source
token is embedded in the sentinel, and the RSS variant produces the same
sentinels. -/
theorem resolver_never_raises :
    ∀ (url : Text) (oc : FetchOutcome), oc = .httpError ∨ oc = .thrown →
      (fetchUrlContent url oc = strL "Failed to fetch " ++ fullUrlOf url ∨
        fetchUrlContent url oc = strL "Error fetching content from " ++ url) ∧
      url <:+ fetchUrlContent url oc ∧
      fetchRssContent url oc = fetchUrlContent url oc := by
  intro url oc hoc
  rcases hoc with rfl | rfl
  · refine ⟨Or.inl rfl, ?_, rfl⟩
    show url <:+ strL "Failed to fetch " ++ fullUrlOf url
    unfold fullUrlOf
    by_cases h : startsWithText (strL "http") url = true
    · rw [if_pos h]
      exact ⟨strL "Failed to fetch ", rfl⟩
    · rw [if_neg h]
      exact ⟨strL "Failed to fetch " ++ strL "https://", by rw [List.append_assoc]⟩
  · exact ⟨Or.inr rfl, ⟨strL "Error fetching content from ", rfl⟩, rfl⟩

theorem resolver_never_raises_witness :
    (fetchUrlContent (strL "example.com") FetchOutcome.httpError
        = strL "Failed to fetch " ++ fullUrlOf (strL "example.com") ∨
      fetchUrlContent (strL "example.com") FetchOutcome.httpError
        = strL "Error fetching content from " ++ strL "example.com") ∧
    strL "example.com" <:+
      fetchUrlContent (strL "example.com") FetchOutcome.httpError ∧
    fetchRssContent (strL "example.com") FetchOutcome.httpError
      = fetchUrlContent (strL "example.com") FetchOutcome.httpError :=
  resolver_never_raises (strL "example.com") FetchOutcome.httpError (Or.inl rfl)

/-- C6 (counterexample): the source `hello` is not URL-like, yet the resolver
does not return it unchanged — it is promoted to `https://hello` and fetched,
and whatever the fetch outcome is, the result differs from the source. -/
theorem literal_source_cex :
    fullUrlOf (strL "hello") = strL "https://hello" ∧
    fetchUrlContent (strL "hello") (FetchOutcome.ok (strL "<p>hi</p>"))
      = strL "hi" ∧
    fetchUrlContent (strL "hello") (FetchOutcome.ok (strL "<p>hi</p>"))
      ≠ strL "hello" ∧
    fetchUrlContent (strL "hello") FetchOutcome.httpError ≠ strL "hello" ∧
    fetchUrlContent (strL "hello") FetchOutcome.thrown ≠ strL "hello" := by
  refine ⟨?_, ?_, ?_, ?_, ?_⟩ <;> decide

/-- C6 (amended): `fetchUrlContent` has no literal-text branch — every source
is fetched over HTTP: a source starting with `http` is fetched as given, any
other source is promoted by prefixing `https://`, so the fetched URL always
starts with `http` and a promoted source is never equal to its URL. -/
theorem resolver_always_fetches :
    ∀ url : Text,
      startsWithText (strL "http") (fullUrlOf url) = true ∧
      (startsWithText (strL "http") url = false →
        fullUrlOf url = strL "https://" ++ url ∧ fullUrlOf url ≠ url) := by
  intro url
  constructor
  · unfold fullUrlOf
    by_cases h : startsWithText (strL "http") url = true
    · rw [if_pos h]
      exact h
    · rw [if_neg h]
      rfl
  · intro h
    unfold fullUrlOf
    rw [if_neg (by simp [h])]
    refine ⟨rfl, ?_⟩
    intro he
    have hl := congrArg List.length he
    rw [List.length_append] at hl
    have h8 : (strL "https://").length = 8 := rfl
    omega

theorem resolver_always_fetches_witness :
    startsWithText (strL "http") (fullUrlOf (strL "hello")) = true ∧
    fullUrlOf (strL "hello") = strL "https://" ++ strL "hello" ∧
    fullUrlOf (strL "hello") ≠ strL "hello" :=
  ⟨(resolver_always_fetches (strL "hello")).1,
    (resolver_always_fetches (strL "hello")).2 (by decide)⟩

/-! ## Whitespace lemmas for the markup-stripping pipeline -/

lemma mem_collapseWsAux : ∀ (t : Text) (prev : Bool) (c : Char),
    c ∈ collapseWsAux prev t → isJsWs c = true → c = ' ' := by
  intro t
  induction t with
  | nil =>
    intro prev c h
    simp [collapseWsAux] at h
  | cons a as ih =>
    intro prev c h hws
    by_cases ha : isJsWs a = true
    · cases prev with
      | true =>
        simp only [collapseWsAux, ha, if_true] at h
        exact ih true c h hws
      | false =>
        simp only [collapseWsAux, ha, if_true, Bool.false_eq_true, if_false,
          List.mem_cons] at h
        rcases h with rfl | h2
        · rfl
        · exact ih true c h2 hws
    · have ha' : isJsWs a = false := by simpa using ha
      simp only [collapseWsAux, ha', Bool.false_eq_true, if_false,
        List.mem_cons] at h
      rcases h with rfl | h2
      · exact absurd hws ha
      · exact ih false c h2 hws

lemma headNotWs_collapseWsAux_true : ∀ t : Text,
    headNotWs (collapseWsAux true t) = true := by
  intro t
  induction t with
  | nil => rfl
  | cons a as ih =>
    by_cases ha : isJsWs a = true
    · simpa [collapseWsAux, ha] using ih
    · simp [collapseWsAux, ha, headNotWs]

lemma chain'_collapseWsAux : ∀ (t : Text) (prev : Bool),
    List.Chain' NoTwoSpaces (collapseWsAux prev t) := by
  intro t
  induction t with
  | nil =>
    intro prev
    simp [collapseWsAux]
  | cons a as ih =>
    intro prev
    by_cases ha : isJsWs a = true
    · cases prev with
      | true =>
        simp only [collapseWsAux, ha, if_true]
        exact ih true
      | false =>
        simp only [collapseWsAux, ha, if_true, Bool.false_eq_true, if_false]
        rw [List.chain'_cons']
        refine ⟨?_, ih true⟩
        intro y hy
        have hh := headNotWs_collapseWsAux_true as
        cases hx : collapseWsAux true as with
        | nil => rw [hx] at hy; simp at hy
        | cons d ds =>
          rw [hx] at hy
          simp at hy
          subst hy
          rw [hx] at hh
          simp [headNotWs] at hh
          intro hp
          rw [hp.2] at hh
          simp [isJsWs] at hh
    · have ha' : isJsWs a = false := by simpa using ha
      simp only [collapseWsAux, ha', Bool.false_eq_true, if_false]
      rw [List.chain'_cons']
      refine ⟨?_, ih false⟩
      intro y _ hp
      rw [hp.1] at ha
      exact ha (by simp [isJsWs])

lemma chain'_noTwoSpaces_reverse {l : Text}
    (h : List.Chain' NoTwoSpaces l) :
    List.Chain' NoTwoSpaces l.reverse := by
  rw [List.chain'_reverse]
  exact List.Chain'.imp (fun a b hab hp => hab ⟨hp.2, hp.1⟩) h

lemma headNotWs_dropWhile (t : Text) :
    headNotWs (t.dropWhile isJsWs) = true := by
  induction t with
  | nil => rfl
  | cons a as ih =>
    by_cases ha : isJsWs a = true
    · rw [List.dropWhile_cons, if_pos ha]
      exact ih
    · rw [List.dropWhile_cons, if_neg ha]
      simp [headNotWs]
      simpa using ha

lemma getLast?_dropWhile (p : Char → Bool) : ∀ B : Text,
    B.dropWhile p ≠ [] → (B.dropWhile p).getLast? = B.getLast? := by
  intro B
  induction B with
  | nil => intro h; exact absurd rfl h
  | cons a as ih =>
    intro h
    by_cases ha : p a = true
    · rw [List.dropWhile_cons, if_pos ha] at h ⊢
      have has : as ≠ [] := by
        intro hnil
        rw [hnil] at h
        exact h rfl
      rw [ih h]
      cases as with
      | nil => exact absurd rfl has
      | cons b bs => rw [List.getLast?_cons_cons]
    · rw [List.dropWhile_cons, if_neg ha]

/-- C7: on a successful fetch the resolver's output is fully normalized — all
whitespace is single spaces (runs collapsed), never two adjacent, none leading
or trailing — and the stage order of the pipeline is the source's: script and
style blocks (with their contents) vanish before tag collapse, remaining tags
become word-separating whitespace, then runs collapse and ends are trimmed. -/
theorem stripHtml_pipeline :
    ∀ (url body : Text),
      (∀ c ∈ fetchUrlContent url (FetchOutcome.ok body),
        isJsWs c = true → c = ' ') ∧
      List.Chain' NoTwoSpaces (fetchUrlContent url (FetchOutcome.ok body)) ∧
      headNotWs (fetchUrlContent url (FetchOutcome.ok body)) = true ∧
      headNotWs (fetchUrlContent url (FetchOutcome.ok body)).reverse = true ∧
      fetchUrlContent url (FetchOutcome.ok (strL "x<script>p q</script>y"))
        = strL "xy" ∧
      fetchUrlContent url (FetchOutcome.ok (strL "x<style>s t</style>y"))
        = strL "xy" ∧
      fetchUrlContent url (FetchOutcome.ok (strL "<p>a</p><p>b</p>"))
        = strL "a b" ∧
      fetchUrlContent url (FetchOutcome.ok (strL "  a \n\n b  "))
        = strL "a b" := by
  intro url body
  have hout : fetchUrlContent url (FetchOutcome.ok body)
      = trimText (collapseWs (stripTags (removeBlocks (strL "style")
          (removeBlocks (strL "script") body)))) := rfl
  refine ⟨?_, ?_, ?_, ?_, rfl, rfl, rfl, rfl⟩
  · intro c hc hws
    rw [hout] at hc
    unfold trimText at hc
    have hc1 := (List.dropWhile_suffix isJsWs).subset (List.mem_reverse.mp hc)
    have hc2 := (List.dropWhile_suffix isJsWs).subset (List.mem_reverse.mp hc1)
    exact mem_collapseWsAux _ false c hc2 hws
  · rw [hout]
    unfold trimText
    have h0 := chain'_collapseWsAux (stripTags (removeBlocks (strL "style")
      (removeBlocks (strL "script") body))) false
    exact chain'_noTwoSpaces_reverse
      (((chain'_noTwoSpaces_reverse
        (h0.suffix (List.dropWhile_suffix isJsWs)))).suffix
          (List.dropWhile_suffix isJsWs))
  · rw [hout]
    unfold trimText
    by_cases hY : ((collapseWs (stripTags (removeBlocks (strL "style")
      (removeBlocks (strL "script") body)))).dropWhile
        isJsWs).reverse.dropWhile isJsWs = []
    · rw [hY]
      rfl
    · unfold headNotWs
      rw [List.head?_reverse, getLast?_dropWhile isJsWs _ hY,
        List.getLast?_reverse]
      have hhA := headNotWs_dropWhile (collapseWs (stripTags
        (removeBlocks (strL "style") (removeBlocks (strL "script") body))))
      unfold headNotWs at hhA
      exact hhA
  · rw [hout]
    unfold trimText
    rw [List.reverse_reverse]
    exact headNotWs_dropWhile _

theorem stripHtml_pipeline_witness :
    (' ' : Char) = ' ' ∧
    headNotWs (fetchUrlContent (strL "u")
      (FetchOutcome.ok (strL "  a \n\n b  "))) = true ∧
    fetchUrlContent (strL "u")
      (FetchOutcome.ok (strL "x<script>p q</script>y")) = strL "xy" ∧
    fetchUrlContent (strL "u") (FetchOutcome.ok (strL "  a \n\n b  "))
      = strL "a b" :=
  ⟨(stripHtml_pipeline (strL "u") (strL "  a \n\n b  ")).1 ' '
      (by decide) (by decide),
    (stripHtml_pipeline (strL "u") (strL "  a \n\n b  ")).2.2.1,
    (stripHtml_pipeline (strL "u") (strL "  a \n\n b  ")).2.2.2.2.1,
    (stripHtml_pipeline (strL "u") (strL "  a \n\n b  ")).2.2.2.2.2.2.2⟩

/-! ## Dashboard action: status gating and validation -/

/-- C5 (counterexample): a query submitted against a job whose status is
`running` is accepted by the action and the `ai/rag.query` event is sent —
the query branch never consults the job's status, so the claimed rejection
does not happen. -/
theorem query_gate_cex :
    ({ id := "00000000-0000-0000-0000-000000000000",
        status := JobStatus.running } : AnalysisJob).status
      = JobStatus.running ∧
    queryAction
        [{ id := "00000000-0000-0000-0000-000000000000",
            status := JobStatus.running }]
        "00000000-0000-0000-0000-000000000000" "What is this?"
      = ActionResult.accepted ["ai/rag.query"] :=
  ⟨rfl, by decide⟩

/-- C5 (amended): the query action gates only on the submitted id's UUID
format and the question's length; it accepts a query against a job of any
status — `running` and `error` included — and sends the query event. -/
theorem query_gate_amended :
    ∀ (jobs : List AnalysisJob) (j : AnalysisJob) (q : String),
      j ∈ jobs → queryValid j.id q = true →
      queryAction jobs j.id q = ActionResult.accepted ["ai/rag.query"] := by
  intro jobs j q _ hv
  unfold queryAction
  rw [if_pos hv]

theorem query_gate_amended_witness :
    queryAction
        [{ id := "00000000-0000-0000-0000-000000000000",
            status := JobStatus.error }]
        "00000000-0000-0000-0000-000000000000" "Why?"
      = ActionResult.accepted ["ai/rag.query"] :=
  query_gate_amended
    [⟨"00000000-0000-0000-0000-000000000000", JobStatus.error⟩]
    ⟨"00000000-0000-0000-0000-000000000000", JobStatus.error⟩ "Why?"
    (by decide) (by decide)

/-- C8: a job submission is accepted only when it carries 1..5 sources of
1..1500 characters each, and submissions violating those bounds are rejected
(no job, no event); a query is accepted only when the id is a valid UUID and
the question is 1..500 characters, and any other query is rejected (no
event). -/
theorem action_validation :
    ∀ (name : String) (sources : List String) (analysisId question : String)
      (jobs : List AnalysisJob) (es : List String),
      (createAction name sources = ActionResult.accepted es →
        1 ≤ sources.length ∧ sources.length ≤ 5 ∧
        sources.all (fun s => decide (1 ≤ s.length) &&
          decide (s.length ≤ 1500)) = true) ∧
      (¬(1 ≤ sources.length ∧ sources.length ≤ 5 ∧
          sources.all (fun s => decide (1 ≤ s.length) &&
            decide (s.length ≤ 1500)) = true) →
        createAction name sources = ActionResult.rejected) ∧
      (queryAction jobs analysisId question = ActionResult.accepted es →
        isUuid analysisId = true ∧ 1 ≤ question.length ∧
          question.length ≤ 500) ∧
      (¬(isUuid analysisId = true ∧ 1 ≤ question.length ∧
          question.length ≤ 500) →
        queryAction jobs analysisId question = ActionResult.rejected) := by
  intro name sources analysisId question jobs es
  refine ⟨?_, ?_, ?_, ?_⟩
  · intro h
    unfold createAction at h
    by_cases hv : createAnalysisValid name sources = true
    · unfold createAnalysisValid at hv
      simp only [Bool.and_eq_true, decide_eq_true_eq] at hv
      exact ⟨hv.1.1.2, hv.1.2, hv.2⟩
    · rw [if_neg hv] at h
      exact ActionResult.noConfusion h
  · intro hnot
    unfold createAction
    rw [if_neg ?_]
    intro hv
    unfold createAnalysisValid at hv
    simp only [Bool.and_eq_true, decide_eq_true_eq] at hv
    exact hnot ⟨hv.1.1.2, hv.1.2, hv.2⟩
  · intro h
    unfold queryAction at h
    by_cases hv : queryValid analysisId question = true
    · unfold queryValid at hv
      simp only [Bool.and_eq_true, decide_eq_true_eq] at hv
      exact ⟨hv.1.1, hv.1.2, hv.2⟩
    · rw [if_neg hv] at h
      exact ActionResult.noConfusion h
  · intro hnot
    unfold queryAction
    rw [if_neg ?_]
    intro hv
    unfold queryValid at hv
    simp only [Bool.and_eq_true, decide_eq_true_eq] at hv
    exact hnot ⟨hv.1.1, hv.1.2, hv.2⟩

theorem action_validation_witness :
    (1 ≤ (["hi"] : List String).length ∧ (["hi"] : List String).length ≤ 5 ∧
      (["hi"] : List String).all (fun s => decide (1 ≤ s.length) &&
        decide (s.length ≤ 1500)) = true) ∧
    createAction "n" [] = ActionResult.rejected ∧
    (isUuid "00000000-0000-0000-0000-000000000000" = true ∧
      1 ≤ ("q" : String).length ∧ ("q" : String).length ≤ 500) ∧
    queryAction [] "bad" "q" = ActionResult.rejected :=
  ⟨(action_validation "n" ["hi"] "u" "q" [] ["ai/rag.process"]).1 (by decide),
    (action_validation "n" [] "u" "q" [] []).2.1 (by decide),
    (action_validation "n" ["hi"] "00000000-0000-0000-0000-000000000000" "q"
      [] ["ai/rag.query"]).2.2.1 (by decide),
    (action_validation "n" ["hi"] "bad" "q" [] []).2.2.2 (by decide)⟩

/-! ## Tabular generation: ordered fallback cascade -/

/-- C9: generation tries the primary AI call, then the fallback AI call, then
the locally synthesized data, in that order; for a nonempty command list and
1..1000 requested rows the synthetic strategy yields exactly the requested
number of rows with one value per command, so the combined function never
surfaces a failure for valid inputs. -/
theorem generate_fallback_cascade :
    ∀ (randDate randPrice : Nat → Nat → String)
      (primary fallbackAI : Option (List (List CellValue)))
      (commands : List String) (numItems : Nat),
      commands ≠ [] → 1 ≤ numItems → numItems ≤ 1000 →
      (∀ d, primary = some d →
        generateWithFallbacks randDate randPrice primary fallbackAI commands
          numItems = .ok d) ∧
      (∀ d, primary = none → fallbackAI = some d →
        generateWithFallbacks randDate randPrice primary fallbackAI commands
          numItems = .ok d) ∧
      (primary = none → fallbackAI = none →
        generateWithFallbacks randDate randPrice primary fallbackAI commands
          numItems
          = .ok (generateSimpleFallbackData randDate randPrice commands
              numItems)) ∧
      exceptOk (generateWithFallbacks randDate randPrice primary fallbackAI
        commands numItems) = true ∧
      (generateSimpleFallbackData randDate randPrice commands
        numItems).length = numItems ∧
      ∀ row ∈ generateSimpleFallbackData randDate randPrice commands numItems,
        row.length = commands.length := by
  intro rd rp primary fb commands n hc h1 h2
  have hc0 : ¬(commands.length = 0) := by
    simpa [List.length_eq_zero] using hc
  have hn0 : ¬(n = 0 ∨ n > 1000) := by omega
  refine ⟨?_, ?_, ?_, ?_, ?_, ?_⟩
  · intro d hd
    unfold generateWithFallbacks
    rw [if_neg hc0, if_neg hn0, hd]
  · intro d hp hf
    unfold generateWithFallbacks
    rw [if_neg hc0, if_neg hn0, hp, hf]
  · intro hp hf
    unfold generateWithFallbacks
    rw [if_neg hc0, if_neg hn0, hp, hf]
  · unfold generateWithFallbacks
    rw [if_neg hc0, if_neg hn0]
    cases primary with
    | some d => rfl
    | none =>
      cases fb with
      | some d => rfl
      | none => rfl
  · simp [generateSimpleFallbackData]
  · intro row hrow
    simp only [generateSimpleFallbackData, List.mem_map] at hrow
    obtain ⟨i, _, rfl⟩ := hrow
    simp [List.enum_length]

theorem generate_fallback_cascade_witness :
    generateWithFallbacks constDate constPrice none none ["name", "age"] 2
      = .ok (generateSimpleFallbackData constDate constPrice
          ["name", "age"] 2) ∧
    exceptOk (generateWithFallbacks constDate constPrice none none
      ["name", "age"] 2) = true ∧
    (generateSimpleFallbackData constDate constPrice ["name", "age"] 2).length
      = 2 ∧
    generateSimpleFallbackData constDate constPrice ["name", "age"] 2
      = [[CellValue.str "Name 1", CellValue.num 20],
          [CellValue.str "Name 2", CellValue.num 21]] := by
  have h := generate_fallback_cascade constDate constPrice none none
    ["name", "age"] 2 (by decide) (by omega) (by omega)
  exact ⟨h.2.2.1 rfl rfl, h.2.2.2.1, h.2.2.2.2.1, by decide⟩

/-! ## Sentinel contents never reach the LLM stage -/

/-- C10: a fetched content beginning with a fetch-failure sentinel is never
passed to the LLM stage — the scraper's LLM inputs are all non-sentinel, a
run equals the run over the links whose content is not a sentinel (so a
sentinel link contributes nothing), and the RSS handler marks the feed
`error` without calling the summarizer. -/
theorem sentinel_never_to_llm :
    ∀ {α : Type} (fetchC : Text → Text) (extract : Text → Option α)
      (links : List Text) (summaryOutcome : Option Text) (content : Text),
      (∀ c ∈ (llmScraperRun fetchC extract links).2,
        isFetchSentinel c = false) ∧
      (llmScraperRun fetchC extract links
        = llmScraperRun fetchC extract
            (links.filter (fun l => !isFetchSentinel (fetchC l)))) ∧
      (isFetchSentinel content = true →
        processRssFeedModel content summaryOutcome
          = (JobStatus.error, none)) := by
  intro α fetchC extract links sOut content
  refine ⟨?_, ?_, ?_⟩
  · induction links with
    | nil =>
      intro c hc
      simp [llmScraperRun] at hc
    | cons link rest ih =>
      intro c hc
      by_cases hs : isFetchSentinel (fetchC link) = true
      · simp only [llmScraperRun, hs, if_true] at hc
        exact ih c hc
      · have hs' : isFetchSentinel (fetchC link) = false := by simpa using hs
        simp only [llmScraperRun, hs', Bool.false_eq_true, if_false] at hc
        cases hx : extract (fetchC link) with
        | some r =>
          rw [hx] at hc
          simp at hc
          rcases hc with rfl | hc2
          · exact hs'
          · exact ih c hc2
        | none =>
          rw [hx] at hc
          simp at hc
          rcases hc with rfl | hc2
          · exact hs'
          · exact ih c hc2
  · induction links with
    | nil => rfl
    | cons link rest ih =>
      by_cases hs : isFetchSentinel (fetchC link) = true
      · simp only [llmScraperRun, hs, if_true, List.filter_cons,
          Bool.not_eq_true', Bool.not_true, Bool.false_eq_true, if_false]
        exact ih
      · have hs' : isFetchSentinel (fetchC link) = false := by simpa using hs
        simp only [llmScraperRun, hs', Bool.false_eq_true, if_false,
          List.filter_cons, Bool.not_eq_true', Bool.not_false, if_true]
        rw [ih]
  · intro h
    simp [processRssFeedModel, h]

theorem sentinel_never_to_llm_witness :
    processRssFeedModel (strL "Failed to fetch https://a")
      (some (strL "sum")) = (JobStatus.error, none) :=
  (sentinel_never_to_llm (fun _ => []) (fun _ => (none : Option Unit)) []
    (some (strL "sum")) (strL "Failed to fetch https://a")).2.2 (by decide)

end BD
